import Mathlib

/-!
Shallow embedding of the `byte` crate (src/lib.rs and src/ctx/bool.rs).

Buffers are `List Nat` (each element one byte).  A Rust `&[u8]` slice
`bytes[o..]` is total only for `o ≤ bytes.len()`; out of that range Rust
panics, which we model with `Option` (`none` = panic) in `rustSliceFrom`.
The mutable offset `*offset` is modelled by returning the new offset next
to the result; the mutable buffer of the write path is returned as well.

A `TryRead` implementation is a function `List Nat → Ctx → Result (α × Nat)`
and a `TryWrite` implementation is `α → List Nat → Ctx → Result Nat × List Nat`
(the returned list is the slice after the call, since a Rust `try_write`
mutates its slice in place even when it subsequently fails).
-/

namespace Byte

/-- Error type from src/lib.rs (enum Error). -/
inductive Error : Type where
  | Incomplete : Error
  | BadOffset : Nat → Error
  | BadInput : String → Error
deriving DecidableEq, Repr

/-- `type Result<T> = core::result::Result<T, Error>` from src/lib.rs. -/
abbrev Result (α : Type) : Type := Except Error α

/-- `check_len` from src/lib.rs: `Err(Incomplete)` when the slice is shorter
than `len`, else `Ok(len)`. -/
def check_len (bytes : List Nat) (len : Nat) : Result Nat :=
  if bytes.length < len then .error .Incomplete else .ok len

/-- Rust slice expression `&bytes[o..]`: defined (as `bytes.drop o`) when
`o ≤ bytes.length`, a panic (`none`) otherwise. -/
def rustSliceFrom (bytes : List Nat) (o : Nat) : Option (List Nat) :=
  if o ≤ bytes.length then some (bytes.drop o) else none

/-- `BytesExt::read_with` from src/lib.rs.  The guard `*offset >= slice.len()`
returns `BadOffset(*offset)`; past the guard the slice `&slice[*offset..]` is
in bounds, so the embedding takes `bytes.drop offset` directly.  An inner
`BadOffset` is reclassified as `Incomplete`; other errors pass through.
Returns the result together with the final value of `*offset`. -/
def read_with {Ctx α : Type} (tr : List Nat → Ctx → Result (α × Nat))
    (bytes : List Nat) (offset : Nat) (ctx : Ctx) : Result α × Nat :=
  if offset ≥ bytes.length then (.error (.BadOffset offset), offset)
  else
    match tr (bytes.drop offset) ctx with
    | .ok (t, size) => (.ok t, offset + size)
    | .error (.BadOffset _) => (.error .Incomplete, offset)
    | .error e => (.error e, offset)

/-- `BytesExt::read` from src/lib.rs: `read_with` at the default context. -/
def read {Ctx α : Type} [Inhabited Ctx] (tr : List Nat → Ctx → Result (α × Nat))
    (bytes : List Nat) (offset : Nat) : Result α × Nat :=
  read_with tr bytes offset default

/-- `BytesExt::write_with` from src/lib.rs.  Same guard and reclassification
as `read_with`; the codec mutates the tail slice, so the buffer after the
call is `bytes.take offset ++ (slice returned by the codec)`.  Returns
(result, final `*offset`, final buffer). -/
def write_with {Ctx α : Type} (tw : α → List Nat → Ctx → Result Nat × List Nat)
    (bytes : List Nat) (offset : Nat) (t : α) (ctx : Ctx) :
    Result Unit × Nat × List Nat :=
  if offset ≥ bytes.length then (.error (.BadOffset offset), offset, bytes)
  else
    let r := tw t (bytes.drop offset) ctx
    let newBytes := bytes.take offset ++ r.2
    match r.1 with
    | .ok size => (.ok (), offset + size, newBytes)
    | .error (.BadOffset _) => (.error .Incomplete, offset, newBytes)
    | .error e => (.error e, offset, newBytes)

/-- `BytesExt::write` from src/lib.rs: `write_with` at the default context. -/
def write {Ctx α : Type} [Inhabited Ctx] (tw : α → List Nat → Ctx → Result Nat × List Nat)
    (bytes : List Nat) (offset : Nat) (t : α) : Result Unit × Nat × List Nat :=
  write_with tw bytes offset t default

/-- `Iter::next` from src/lib.rs.  The body is
`try_read(&self.bytes[*self.offset..], ctx.clone()).ok().map(...)`: the slice
has no bounds guard, so `rustSliceFrom` may panic (outer `none`).  Inner
`some t` means the call yielded `Some(t)` advancing the offset, inner `none`
means it yielded `None` (the error is discarded, offset untouched). -/
def iter_next {Ctx α : Type} (tr : List Nat → Ctx → Result (α × Nat))
    (bytes : List Nat) (offset : Nat) (ctx : Ctx) : Option (Option α × Nat) :=
  match rustSliceFrom bytes offset with
  | none => none
  | some slice =>
    match tr slice ctx with
    | .ok (t, size) => some (some t, offset + size)
    | .error _ => some (none, offset)

/-- Driving the iterator of src/lib.rs for at most `fuel` steps starting at
`offset`: the values yielded in order, the final offset, and a flag that is
`true` exactly when a `next` call returned `None` within the fuel (the
iterator genuinely stopped; `false` means the fuel ran out or a step
panicked). -/
def iter_collect {Ctx α : Type} (tr : List Nat → Ctx → Result (α × Nat))
    (bytes : List Nat) (ctx : Ctx) : Nat → Nat → List α × Nat × Bool
  | 0, offset => ([], offset, false)
  | fuel + 1, offset =>
    match iter_next tr bytes offset ctx with
    | some (some t, offNext) =>
      let r := iter_collect tr bytes ctx fuel offNext
      (t :: r.1, r.2.1, r.2.2)
    | some (none, offNext) => ([], offNext, true)
    | none => ([], offset, false)

/-- `impl TryRead for bool` from src/ctx/bool.rs: `check_len(bytes, 1)?`,
then match on `bytes[0]` (after the check the slice is nonempty, so
`head?` is `some`; the `none` branch is unreachable). -/
def bool_try_read (bytes : List Nat) (_ctx : Unit) : Result (Bool × Nat) :=
  match check_len bytes 1 with
  | .error e => .error e
  | .ok _ =>
    match bytes.head? with
    | some 1 => .ok (true, 1)
    | some 0 => .ok (false, 1)
    | _ => .error (.BadInput "Invalid bool encoding")

/-- `impl TryWrite for bool` from src/ctx/bool.rs: `check_len(bytes, 1)?`,
then `bytes[0] = if self { 1 } else { 0 }` and `Ok(1)`. -/
def bool_try_write (v : Bool) (bytes : List Nat) (_ctx : Unit) :
    Result Nat × List Nat :=
  match check_len bytes 1 with
  | .error e => (.error e, bytes)
  | .ok _ => (.ok 1, (if v then 1 else 0) :: bytes.tail)

/-- Test decoder used only as a concrete input in witnesses: always fails
with `BadOffset 3`, exercising the reclassification path of the cursor
layer. -/
def badOffsetRead (_bytes : List Nat) (_ctx : Unit) : Result (Bool × Nat) :=
  .error (.BadOffset 3)

/-- Test encoder used only as a concrete input in witnesses: always fails
with `BadOffset 3` and leaves the slice unchanged. -/
def badOffsetWrite (_v : Bool) (bytes : List Nat) (_ctx : Unit) :
    Result Nat × List Nat :=
  (.error (.BadOffset 3), bytes)

/-- Test decoder used in the C7 counterexample: succeeds on every slice,
the empty one included, consuming 0 bytes — legal under the codec contract,
since the reported size 0 never exceeds the slice length. -/
def zeroSizeRead (_bytes : List Nat) (_ctx : Unit) : Result (Nat × Nat) :=
  .ok (0, 0)

/-- Claim C8: bool decoding fails with `Incomplete` on the empty slice;
otherwise it inspects exactly the first byte — 1 yields `(true, 1)`, 0
yields `(false, 1)`, anything else fails with `BadInput` — it never returns
`BadOffset`, and through the cursor layer, reading a bool from buffer `[2]`
at offset 0 fails with `BadInput` leaving the offset at 0. -/
theorem bool_try_read_spec (bytes : List Nat) :
    (bytes = [] → bool_try_read bytes () = .error .Incomplete) ∧
    (∀ b rest, bytes = b :: rest →
      bool_try_read bytes () =
        if b = 1 then .ok (true, 1)
        else if b = 0 then .ok (false, 1)
        else .error (.BadInput "Invalid bool encoding")) ∧
    (∀ n, bool_try_read bytes () ≠ .error (.BadOffset n)) ∧
    read_with bool_try_read [2] 0 () =
      (.error (.BadInput "Invalid bool encoding"), 0) := by
  refine ⟨?_, ?_, ?_, rfl⟩
  · rintro rfl; rfl
  · rintro b rest rfl
    by_cases h1 : b = 1
    · subst h1; rfl
    · by_cases h0 : b = 0
      · subst h0; rfl
      · simp only [bool_try_read, check_len, List.length_cons, List.head?_cons,
          if_neg (by omega : ¬ (rest.length + 1 < 1))]
        rw [if_neg h1, if_neg h0]
        cases b with
        | zero => exact absurd rfl h0
        | succ m =>
          cases m with
          | zero => exact absurd rfl h1
          | succ k => rfl
  · intro n
    cases bytes with
    | nil => simp [bool_try_read, check_len]
    | cons b rest =>
      simp only [bool_try_read, check_len, List.length_cons, List.head?_cons,
        if_neg (by omega : ¬ (rest.length + 1 < 1))]
      cases b with
      | zero => simp
      | succ m =>
        cases m with
        | zero => simp
        | succ k => simp

/-- Witness for C8 at concrete inputs. -/
theorem bool_try_read_spec_witness :
    bool_try_read [] () = .error .Incomplete ∧
    bool_try_read [2] () = .error (.BadInput "Invalid bool encoding") := by
  refine ⟨(bool_try_read_spec []).1 rfl, ?_⟩
  have h := (bool_try_read_spec [2]).2.1 2 [] rfl
  simpa using h

/-- Claim C9: bool encoding fails with `Incomplete` on the empty slice,
leaving it unchanged; on a nonempty slice it overwrites exactly the byte at
index 0 (1 for true, 0 for false) regardless of its prior value, returns
written size 1, and every byte from index 1 on is unchanged. -/
theorem bool_try_write_spec (v : Bool) (bytes : List Nat) :
    (bytes = [] → bool_try_write v bytes () = (.error .Incomplete, bytes)) ∧
    (∀ b rest, bytes = b :: rest →
      bool_try_write v bytes () = (.ok 1, (if v then 1 else 0) :: rest)) := by
  constructor
  · rintro rfl; rfl
  · rintro b rest rfl; rfl

/-- Witness for C9 at concrete inputs. -/
theorem bool_try_write_spec_witness :
    bool_try_write true [] () = (.error .Incomplete, []) ∧
    bool_try_write false [7, 9] () = (.ok 1, [0, 9]) := by
  refine ⟨(bool_try_write_spec true []).1 rfl, ?_⟩
  have h := (bool_try_write_spec false [7, 9]).2 7 [9] rfl
  simpa using h

/-- Claim C5: round trip for the reference bool codec — on any buffer of
length at least 1, `try_write v` succeeds with written size 1 and decoding
the resulting buffer yields `(v, 1)`. -/
theorem bool_roundtrip (v : Bool) (bytes : List Nat) (h : 1 ≤ bytes.length) :
    (bool_try_write v bytes ()).1 = .ok 1 ∧
    bool_try_read (bool_try_write v bytes ()).2 () = .ok (v, 1) := by
  cases bytes with
  | nil => simp at h
  | cons b rest =>
    cases v with
    | false => exact ⟨rfl, rfl⟩
    | true => exact ⟨rfl, rfl⟩

/-- Witness for C5 at a concrete input. -/
theorem bool_roundtrip_witness :
    (bool_try_write true [0] ()).1 = .ok 1 ∧
    bool_try_read (bool_try_write true [0] ()).2 () = .ok (true, 1) :=
  bool_roundtrip true [0] (by decide)

/-- Claim C1: with `*offset` strictly below the buffer length, an inner
`BadOffset(n)` from the codec is reclassified as `Incomplete` by `read_with`
and `write_with`, any other inner error (`Incomplete`, `BadInput`) is
returned unchanged, and in every failure case the offset is untouched. -/
theorem reclassification {Ctx α γ : Type}
    (tr : List Nat → Ctx → Result (α × Nat))
    (tw : γ → List Nat → Ctx → Result Nat × List Nat)
    (bytes : List Nat) (offset : Nat) (ctx : Ctx) (t : γ)
    (h : offset < bytes.length) :
    (∀ n, tr (bytes.drop offset) ctx = .error (.BadOffset n) →
      read_with tr bytes offset ctx = (.error .Incomplete, offset)) ∧
    (tr (bytes.drop offset) ctx = .error .Incomplete →
      read_with tr bytes offset ctx = (.error .Incomplete, offset)) ∧
    (∀ s, tr (bytes.drop offset) ctx = .error (.BadInput s) →
      read_with tr bytes offset ctx = (.error (.BadInput s), offset)) ∧
    (∀ n, (tw t (bytes.drop offset) ctx).1 = .error (.BadOffset n) →
      (write_with tw bytes offset t ctx).1 = .error .Incomplete ∧
      (write_with tw bytes offset t ctx).2.1 = offset) ∧
    ((tw t (bytes.drop offset) ctx).1 = .error .Incomplete →
      (write_with tw bytes offset t ctx).1 = .error .Incomplete ∧
      (write_with tw bytes offset t ctx).2.1 = offset) ∧
    (∀ s, (tw t (bytes.drop offset) ctx).1 = .error (.BadInput s) →
      (write_with tw bytes offset t ctx).1 = .error (.BadInput s) ∧
      (write_with tw bytes offset t ctx).2.1 = offset) := by
  have hg : ¬ offset ≥ bytes.length := by omega
  refine ⟨?_, ?_, ?_, ?_, ?_, ?_⟩
  · intro n hn; simp [read_with, hg, hn]
  · intro hn; simp [read_with, hg, hn]
  · intro s hs; simp [read_with, hg, hs]
  · intro n hn; constructor <;> simp [write_with, hg, hn]
  · intro hn; constructor <;> simp [write_with, hg, hn]
  · intro s hs; constructor <;> simp [write_with, hg, hs]

/-- Witness for C1 at concrete inputs (test codecs that fail with
`BadOffset 3`). -/
theorem reclassification_witness :
    read_with badOffsetRead [0] 0 () = (.error .Incomplete, 0) ∧
    (write_with badOffsetWrite [0] 0 true ()).1 = .error .Incomplete ∧
    (write_with badOffsetWrite [0] 0 true ()).2.1 = 0 := by
  have h := reclassification badOffsetRead badOffsetWrite [0] 0 () true
    (by decide)
  exact ⟨h.1 3 rfl, h.2.2.2.1 3 rfl⟩

/-- Claim C2: whenever `*offset ≥ buffer.length` — and only then — the four
cursor-layer entry points fail immediately with `BadOffset(*offset)`, for
every codec (hence without invoking it), leaving offset and buffer
untouched; conversely a `BadOffset` outcome of the cursor layer can only
come from that top-level check and always carries the offset passed. -/
theorem bad_offset_guard {Ctx α γ : Type} [Inhabited Ctx]
    (tr : List Nat → Ctx → Result (α × Nat))
    (tw : γ → List Nat → Ctx → Result Nat × List Nat)
    (bytes : List Nat) (offset : Nat) (ctx : Ctx) (t : γ) :
    (bytes.length ≤ offset →
      read_with tr bytes offset ctx = (.error (.BadOffset offset), offset) ∧
      read tr bytes offset = (.error (.BadOffset offset), offset) ∧
      write_with tw bytes offset t ctx =
        (.error (.BadOffset offset), offset, bytes) ∧
      write tw bytes offset t = (.error (.BadOffset offset), offset, bytes)) ∧
    (∀ n off2, read_with tr bytes offset ctx = (.error (.BadOffset n), off2) →
      bytes.length ≤ offset ∧ n = offset ∧ off2 = offset) ∧
    (∀ n off2 buf2,
      write_with tw bytes offset t ctx = (.error (.BadOffset n), off2, buf2) →
      bytes.length ≤ offset ∧ n = offset ∧ off2 = offset ∧ buf2 = bytes) := by
  refine ⟨?_, ?_, ?_⟩
  · intro h
    have hg : offset ≥ bytes.length := h
    exact ⟨by simp [read_with, hg], by simp [read, read_with, hg],
      by simp [write_with, hg], by simp [write, write_with, hg]⟩
  · intro n off2 hres
    by_cases hg : offset ≥ bytes.length
    · simp only [read_with, if_pos hg] at hres
      cases hres; exact ⟨hg, rfl, rfl⟩
    · exfalso
      simp only [read_with, if_neg hg] at hres
      rcases hr : tr (bytes.drop offset) ctx with e | p
      · rcases e with _ | m | s <;> simp [hr] at hres
      · simp [hr] at hres
  · intro n off2 buf2 hres
    by_cases hg : offset ≥ bytes.length
    · simp only [write_with, if_pos hg] at hres
      cases hres; exact ⟨hg, rfl, rfl, rfl⟩
    · exfalso
      simp only [write_with, if_neg hg] at hres
      rcases hr : (tw t (bytes.drop offset) ctx).1 with e | sz
      · rcases e with _ | m | s <;> simp [hr] at hres
      · simp [hr] at hres

/-- Witness for C2 at concrete inputs (the spec's scenarios 3 and 5:
empty buffer, offset 0). -/
theorem bad_offset_guard_witness :
    read_with bool_try_read ([] : List Nat) 0 () =
      (.error (.BadOffset 0), 0) ∧
    write_with bool_try_write ([] : List Nat) 0 true () =
      (.error (.BadOffset 0), 0, []) := by
  have h := (bad_offset_guard bool_try_read bool_try_write [] 0 () true).1
    (by decide)
  exact ⟨h.1, h.2.2.1⟩

/-- Claim C3: on success the cursor layer advances the offset by exactly the
size the codec reported, and if that size respects the codec contract
(size ≤ length of the slice given to the codec) the new offset is at most
the buffer length; on any failure the offset is exactly its old value. -/
theorem offset_advance {Ctx α γ : Type}
    (tr : List Nat → Ctx → Result (α × Nat))
    (tw : γ → List Nat → Ctx → Result Nat × List Nat)
    (bytes : List Nat) (offset : Nat) (ctx : Ctx) (t : γ) :
    (∀ v off2, read_with tr bytes offset ctx = (.ok v, off2) →
      ∃ size, tr (bytes.drop offset) ctx = .ok (v, size) ∧
        off2 = offset + size ∧
        (size ≤ (bytes.drop offset).length → off2 ≤ bytes.length)) ∧
    (∀ e off2, read_with tr bytes offset ctx = (.error e, off2) →
      off2 = offset) ∧
    (∀ off2 buf2, write_with tw bytes offset t ctx = (.ok (), off2, buf2) →
      ∃ size, (tw t (bytes.drop offset) ctx).1 = .ok size ∧
        off2 = offset + size ∧
        (size ≤ (bytes.drop offset).length → off2 ≤ bytes.length)) ∧
    (∀ e off2 buf2,
      write_with tw bytes offset t ctx = (.error e, off2, buf2) →
      off2 = offset) := by
  refine ⟨?_, ?_, ?_, ?_⟩
  · intro v off2 hres
    by_cases hg : offset ≥ bytes.length
    · simp [read_with, hg] at hres
    · simp only [read_with, if_neg hg] at hres
      rcases hr : tr (bytes.drop offset) ctx with e | p
      · rcases e with _ | m | s <;> simp [hr] at hres
      · obtain ⟨pv, psize⟩ := p
        simp only [hr] at hres
        cases hres
        refine ⟨psize, rfl, rfl, ?_⟩
        intro hle
        have hd : (bytes.drop offset).length = bytes.length - offset := by
          simp
        omega
  · intro e off2 hres
    by_cases hg : offset ≥ bytes.length
    · simp only [read_with, if_pos hg] at hres
      cases hres; rfl
    · simp only [read_with, if_neg hg] at hres
      rcases hr : tr (bytes.drop offset) ctx with e' | p
      · rcases e' with _ | m | s <;> simp [hr] at hres <;> omega
      · simp [hr] at hres
  · intro off2 buf2 hres
    by_cases hg : offset ≥ bytes.length
    · simp [write_with, hg] at hres
    · simp only [write_with, if_neg hg] at hres
      rcases hr : (tw t (bytes.drop offset) ctx).1 with e | sz
      · rcases e with _ | m | s <;> simp [hr] at hres
      · simp only [hr] at hres
        cases hres
        refine ⟨sz, rfl, rfl, ?_⟩
        intro hle
        have hd : (bytes.drop offset).length = bytes.length - offset := by
          simp
        omega
  · intro e off2 buf2 hres
    by_cases hg : offset ≥ bytes.length
    · simp only [write_with, if_pos hg] at hres
      cases hres; rfl
    · simp only [write_with, if_neg hg] at hres
      rcases hr : (tw t (bytes.drop offset) ctx).1 with e' | sz
      · rcases e' with _ | m | s <;> simp [hr] at hres <;> omega
      · simp [hr] at hres

/-- Witness for C3 at concrete inputs (the bool codec on buffer `[1]`). -/
theorem offset_advance_witness :
    (∃ size, bool_try_read (List.drop 0 [1]) () = .ok (true, size) ∧
      1 = 0 + size ∧
      (size ≤ (List.drop 0 [1]).length → 1 ≤ ([1] : List Nat).length)) ∧
    0 = 0 :=
  ⟨(offset_advance bool_try_read bool_try_write [1] 0 () true).1
      true 1 rfl,
    ((offset_advance bool_try_read bool_try_write [2] 0 () true).2.1
      (.BadInput "Invalid bool encoding") 0 rfl)⟩

/-- Claim C10: at an offset equal to the buffer length the two layers
diverge — for every decoder that fails on the empty slice, `Iter::next`
slices the empty remainder, hands it to the decoder and returns `None`
with the offset untouched (no `BadOffset` is produced), while `read_with`
at that same offset fails with `BadOffset` for every decoder, without
invoking it. -/
theorem boundary_divergence {Ctx α : Type}
    (tr : List Nat → Ctx → Result (α × Nat)) (bytes : List Nat) (ctx : Ctx)
    (h : ∃ e, tr [] ctx = .error e) :
    iter_next tr bytes bytes.length ctx = some (none, bytes.length) ∧
    read_with tr bytes bytes.length ctx =
      (.error (.BadOffset bytes.length), bytes.length) := by
  obtain ⟨e, he⟩ := h
  constructor
  · simp [iter_next, rustSliceFrom, he]
  · simp [read_with]

/-- Witness for C10 at a concrete input (the bool codec on buffer `[1,0]`,
offset 2). -/
theorem boundary_divergence_witness :
    iter_next bool_try_read [1, 0] 2 () = some (none, 2) ∧
    read_with bool_try_read [1, 0] 2 () = (.error (.BadOffset 2), 2) :=
  boundary_divergence bool_try_read [1, 0] () ⟨.Incomplete, rfl⟩

/-- Concatenation of a list of encodings followed by the trailing bytes. -/
def chainBytes {α : Type} : List (List Nat × α) → List Nat → List Nat
  | [], trailing => trailing
  | (enc, _) :: rest, trailing => enc ++ chainBytes rest trailing

/-- `ValidChain tr ctx items trailing` says: each listed encoding, decoded in
front of what follows it, yields its listed value consuming exactly that
encoding, and decoding the trailing bytes alone fails. -/
def ValidChain {Ctx α : Type} (tr : List Nat → Ctx → Result (α × Nat))
    (ctx : Ctx) : List (List Nat × α) → List Nat → Prop
  | [], trailing => ∃ e, tr trailing ctx = .error e
  | (enc, v) :: rest, trailing =>
      tr (enc ++ chainBytes rest trailing) ctx = .ok (v, enc.length) ∧
      ValidChain tr ctx rest trailing

/-- Unfolding one step of `iter_collect` at positive fuel. -/
theorem iter_collect_succ {Ctx α : Type}
    (tr : List Nat → Ctx → Result (α × Nat)) (bytes : List Nat) (ctx : Ctx)
    (fuel offset : Nat) :
    iter_collect tr bytes ctx (fuel + 1) offset =
      match iter_next tr bytes offset ctx with
      | some (some t, offNext) =>
        let r := iter_collect tr bytes ctx fuel offNext
        (t :: r.1, r.2.1, r.2.2)
      | some (none, offNext) => ([], offNext, true)
      | none => ([], offset, false) := rfl

/-- Helper for C6: driving the iterator from the end of an arbitrary prefix
yields the chained values and stops at the start of the trailing bytes. -/
theorem iter_collect_chain {Ctx α : Type}
    (tr : List Nat → Ctx → Result (α × Nat)) (ctx : Ctx) :
    ∀ (items : List (List Nat × α)) (trailing pre : List Nat),
    ValidChain tr ctx items trailing →
    iter_collect tr (pre ++ chainBytes items trailing) ctx
        (items.length + 1) pre.length =
      (items.map Prod.snd,
        pre.length + (items.map fun p => p.1.length).sum, true) := by
  intro items
  induction items with
  | nil =>
    intro trailing pre h
    obtain ⟨e, he⟩ := h
    have hstep : iter_next tr (pre ++ chainBytes ([] : List (List Nat × α)) trailing) pre.length ctx =
        some (none, pre.length) := by
      have hdrop : (pre ++ chainBytes ([] : List (List Nat × α)) trailing).drop pre.length =
          trailing := List.drop_left pre trailing
      have hle : pre.length ≤ (pre ++ chainBytes ([] : List (List Nat × α)) trailing).length := by
        simp
      simp only [iter_next, rustSliceFrom, if_pos hle, hdrop, he]
    rw [iter_collect_succ, hstep]
    simp
  | cons hd rest ih =>
    intro trailing pre h
    obtain ⟨enc, v⟩ := hd
    obtain ⟨h1, h2⟩ := h
    have hb : pre ++ chainBytes ((enc, v) :: rest) trailing =
        (pre ++ enc) ++ chainBytes rest trailing := by
      simp [chainBytes]
    have hstep : iter_next tr (pre ++ chainBytes ((enc, v) :: rest) trailing)
        pre.length ctx = some (some v, pre.length + enc.length) := by
      have hdrop : (pre ++ chainBytes ((enc, v) :: rest) trailing).drop
          pre.length = enc ++ chainBytes rest trailing :=
        List.drop_left pre (enc ++ chainBytes rest trailing)
      have hle : pre.length ≤
          (pre ++ chainBytes ((enc, v) :: rest) trailing).length := by
        simp
      simp only [iter_next, rustSliceFrom, if_pos hle, hdrop, h1]
    have hlen : pre.length + enc.length = (pre ++ enc).length := by
      simp
    have hrec := ih trailing (pre ++ enc) h2
    simp only [List.length_cons, List.map_cons, List.sum_cons]
    rw [iter_collect_succ, hstep]
    simp only [hb, hlen, hrec]
    simp [Nat.add_assoc]

/-- Claim C6: over a buffer of N concatenated valid encodings followed by
trailing bytes on which decode fails, the iterator yields exactly the N
decoded values in order, then yields `None` (discarding the terminal
error), and leaves the shared offset at the start of the invalid trailing
region (the sum of the encoding lengths). -/
theorem iter_chain {Ctx α : Type}
    (tr : List Nat → Ctx → Result (α × Nat)) (ctx : Ctx)
    (items : List (List Nat × α)) (trailing : List Nat)
    (h : ValidChain tr ctx items trailing) :
    iter_collect tr (chainBytes items trailing) ctx (items.length + 1) 0 =
      (items.map Prod.snd, (items.map fun p => p.1.length).sum, true) := by
  have hmain := iter_collect_chain tr ctx items trailing [] h
  simpa using hmain

/-- Witness for C6 at the spec's concrete scenario: buffer `[1,0,1,0,1]`
as five bool encodings with empty trailing bytes. -/
theorem iter_chain_witness :
    iter_collect bool_try_read [1, 0, 1, 0, 1] () 6 0 =
      ([true, false, true, false, true], 5, true) := by
  have h := iter_chain bool_try_read ()
    [([1], true), ([0], false), ([1], true), ([0], false), ([1], true)] []
    ⟨rfl, rfl, rfl, rfl, rfl, .Incomplete, rfl⟩
  simpa using h

/-- Helper for C7: under the codec contract plus a strict progress bound
(every successful decode consumes at least one byte and at most the slice
length), driving the iterator with fuel exceeding the remaining bytes
reaches a genuine stop, having yielded at most that many values. -/
theorem iter_collect_stops {Ctx α : Type}
    (tr : List Nat → Ctx → Result (α × Nat)) (bytes : List Nat) (ctx : Ctx)
    (hsz : ∀ s v n, tr s ctx = .ok (v, n) → 1 ≤ n ∧ n ≤ s.length) :
    ∀ (fuel offset : Nat), offset ≤ bytes.length →
      bytes.length - offset < fuel →
      (iter_collect tr bytes ctx fuel offset).2.2 = true ∧
      (iter_collect tr bytes ctx fuel offset).1.length ≤
        bytes.length - offset := by
  intro fuel
  induction fuel with
  | zero => intro offset hoff hlt; omega
  | succ f ih =>
    intro offset hoff hlt
    have hslice : rustSliceFrom bytes offset = some (bytes.drop offset) := by
      simp [rustSliceFrom, hoff]
    rcases hr : tr (bytes.drop offset) ctx with e | p
    · have hstep : iter_next tr bytes offset ctx = some (none, offset) := by
        simp [iter_next, hslice, hr]
      rw [iter_collect_succ, hstep]
      exact ⟨rfl, by simp⟩
    · obtain ⟨v, n⟩ := p
      have hn := hsz (bytes.drop offset) v n hr
      have hdlen : (bytes.drop offset).length = bytes.length - offset := by
        simp
      have hstep : iter_next tr bytes offset ctx =
          some (some v, offset + n) := by
        simp [iter_next, hslice, hr]
      have hoff2 : offset + n ≤ bytes.length := by omega
      have hlt2 : bytes.length - (offset + n) < f := by omega
      have hrec := ih (offset + n) hoff2 hlt2
      rw [iter_collect_succ, hstep]
      refine ⟨hrec.1, ?_⟩
      have := hrec.2
      simp only [List.length_cons]
      omega

/-- Counterexample to claim C7 as stated: `zeroSizeRead` is a `TryRead`
implementation (it even satisfies the codec contract, reporting size
0 ≤ slice length), yet on the already-exhausted buffer `[]` the iterator
yields a value on every call — here it still yields after 5 steps with the
state unchanged, so it is not finite. -/
theorem iter_finite_counterexample :
    iter_next zeroSizeRead ([] : List Nat) 0 () = some (some 0, 0) ∧
    iter_collect zeroSizeRead ([] : List Nat) () 5 0 =
      ([0, 0, 0, 0, 0], 0, false) :=
  ⟨rfl, rfl⟩

/-- Claim C7 (amended): for every `TryRead` implementation whose successful
decodes consume at least one byte and no more than the slice it was given,
and every start offset at most the buffer length, the iterator is finite —
within `buffer.length - offset + 1` calls it stops (a call returns `None`),
having yielded at most `buffer.length - offset` values. -/
theorem iter_finite {Ctx α : Type}
    (tr : List Nat → Ctx → Result (α × Nat)) (bytes : List Nat) (ctx : Ctx)
    (offset : Nat)
    (hsz : ∀ s v n, tr s ctx = .ok (v, n) → 1 ≤ n ∧ n ≤ s.length)
    (hoff : offset ≤ bytes.length) :
    (iter_collect tr bytes ctx (bytes.length - offset + 1) offset).2.2 =
      true ∧
    (iter_collect tr bytes ctx (bytes.length - offset + 1) offset).1.length ≤
      bytes.length - offset :=
  iter_collect_stops tr bytes ctx hsz (bytes.length - offset + 1) offset hoff
    (by omega)

/-- The bool decoder's reported size is 1 and never exceeds the slice
length (codec-contract fact used to instantiate C7's witness). -/
theorem bool_try_read_size (s : List Nat) (v : Bool) (n : Nat)
    (h : bool_try_read s () = .ok (v, n)) : 1 ≤ n ∧ n ≤ s.length := by
  cases s with
  | nil => simp [bool_try_read, check_len] at h
  | cons b rest =>
    simp only [bool_try_read, check_len, List.length_cons, List.head?_cons,
      if_neg (by omega : ¬ (rest.length + 1 < 1))] at h
    cases b with
    | zero => cases h; simp
    | succ m =>
      cases m with
      | zero => cases h; simp
      | succ k => simp at h

/-- Witness for C7 (amended) at a concrete input (bool codec, buffer
`[1,0]`, offset 0). -/
theorem iter_finite_witness :
    (iter_collect bool_try_read [1, 0] () 3 0).2.2 = true ∧
    (iter_collect bool_try_read [1, 0] () 3 0).1.length ≤ 2 := by
  have h := iter_finite bool_try_read [1, 0] () 0
    (fun s v n hr => bool_try_read_size s v n hr) (by decide)
  simpa using h

/-- Claim C4 fails on the code: `Iter::next` evaluates the slice expression
`self.bytes[*self.offset..]` with no bounds guard, so an offset strictly
greater than the buffer length makes the slice start out of range — a Rust
panic, modelled as `none`.  Here: buffer `[]`, offset 1.  (The spec and the
crate's own top-level documentation promise panic freedom, so this is a
bug in the code, not in the claim.) -/
theorem iter_next_panics :
    iter_next bool_try_read ([] : List Nat) 1 () = none := rfl

end Byte
